import Mathlib

/-
Verification of folium/raster_layers.py (TileLayer, WmsTileLayer, ImageOverlay,
VideoOverlay): a shallow embedding of the module's construction and rendering
logic, together with models of the external collaborators it calls
(the json module's serializer, the jinja2 template substitution, the branca
element tree, and the pieces of the folium package that are not part of this
module).  All definitions are executable; machine-level details that cannot
influence the verified claims (exact byte strings of the provider templates,
binary floating point) are modelled at the level stated in each doc comment.
-/

/-! ## Python string ordering (code-point lexicographic, as used by
`json.dumps(..., sort_keys=True)`) -/

/-- Lexicographic comparison of two character lists by code point.  This is
the order Python uses to compare `str` values, hence the order in which
`json.dumps(options, sort_keys=True)` emits dictionary keys. -/
def lexLe : List Char → List Char → Bool
  | [], _ => true
  | _ :: _, [] => false
  | c :: cs, d :: ds =>
    if c.toNat < d.toNat then true
    else if d.toNat < c.toNat then false
    else lexLe cs ds

theorem lexLe_total : ∀ a b, lexLe a b = true ∨ lexLe b a = true := by
  intro a
  induction a with
  | nil => intro b; left; rfl
  | cons c cs ih =>
    intro b
    cases b with
    | nil => right; rfl
    | cons d ds =>
      by_cases h1 : c.toNat < d.toNat
      · left; simp [lexLe, h1]
      · by_cases h2 : d.toNat < c.toNat
        · right; simp [lexLe, h2]
        · rcases ih ds with h | h
          · left; simp [lexLe, h1, h2, h]
          · right; simp [lexLe, h1, h2, h]

theorem lexLe_trans : ∀ a b c, lexLe a b = true → lexLe b c = true →
    lexLe a c = true := by
  intro a
  induction a with
  | nil => intro b c _ _; rfl
  | cons x xs ih =>
    intro b c hab hbc
    cases b with
    | nil => simp [lexLe] at hab
    | cons y ys =>
      cases c with
      | nil => simp [lexLe] at hbc
      | cons z zs =>
        simp only [lexLe] at hab hbc ⊢
        by_cases hxy : x.toNat < y.toNat
        · by_cases hyz : y.toNat < z.toNat
          · have hxz : x.toNat < z.toNat := by omega
            simp [hxz]
          · by_cases hzy : z.toNat < y.toNat
            · simp [hyz, hzy] at hbc
            · have hxz : x.toNat < z.toNat := by omega
              simp [hxz]
        · by_cases hyx : y.toNat < x.toNat
          · simp [hxy, hyx] at hab
          · simp [hxy, hyx] at hab
            by_cases hyz : y.toNat < z.toNat
            · have hxz : x.toNat < z.toNat := by omega
              simp [hxz]
            · by_cases hzy : z.toNat < y.toNat
              · simp [hyz, hzy] at hbc
              · simp [hyz, hzy] at hbc
                have h1 : ¬ x.toNat < z.toNat := by omega
                have h2 : ¬ z.toNat < x.toNat := by omega
                simp [h1, h2]
                exact ih ys zs hab hbc

/-! ## Decimal digit printing (Python `repr` of `int`, used by `json.dumps`) -/

/-- Little-endian base-10 digits of `n`, computed with explicit fuel so the
definition is structural (and hence evaluates inside the kernel). -/
def digitsRev : Nat → Nat → List Nat
  | 0, _ => []
  | f + 1, n => if n = 0 then [] else n % 10 :: digitsRev f (n / 10)

/-- Decimal character representation of a natural number, most significant
digit first; `natChars 0 = ['0']`, exactly as Python prints integers. -/
def natChars (n : Nat) : List Char :=
  if n = 0 then ['0'] else ((digitsRev n n).map Nat.digitChar).reverse

/-- Decimal character representation of an integer, as printed by Python's
`repr`/`json.dumps` (a leading '-' for negatives, no '+'). -/
def intChars (n : Int) : List Char :=
  if n < 0 then '-' :: natChars n.natAbs else natChars n.toNat

theorem digitsRev_lt_ten : ∀ f n d, d ∈ digitsRev f n → d < 10 := by
  intro f
  induction f with
  | zero => intro n d h; simp [digitsRev] at h
  | succ f ih =>
    intro n d h
    simp only [digitsRev] at h
    by_cases hn : n = 0
    · simp [hn] at h
    · rw [if_neg hn] at h
      rcases List.mem_cons.1 h with h | h
      · omega
      · exact ih _ _ h

theorem digitsRev_foldr : ∀ f n, n ≤ f →
    (digitsRev f n).foldr (fun d a => 10 * a + d) 0 = n := by
  intro f
  induction f with
  | zero => intro n h; interval_cases n; rfl
  | succ f ih =>
    intro n h
    simp only [digitsRev]
    by_cases hn : n = 0
    · simp [hn]
    · rw [if_neg hn]
      simp only [List.foldr_cons]
      have hdf : n / 10 ≤ f := by omega
      rw [ih _ hdf]
      omega

theorem digitChar_toNat : ∀ d, d < 10 → (Nat.digitChar d).toNat = 48 + d := by
  intro d h
  interval_cases d <;> decide

/-- The digit predicate used by the JSON number scanner; it agrees with
Python's notion of an ASCII decimal digit. -/
def isDigitChar (c : Char) : Bool := 48 ≤ c.toNat && c.toNat ≤ 57

theorem digitChar_isDigit : ∀ d, d < 10 → isDigitChar (Nat.digitChar d) = true := by
  intro d h
  interval_cases d <;> decide

theorem natChars_ne_nil (n : Nat) : natChars n ≠ [] := by
  unfold natChars
  by_cases hn : n = 0
  · simp [hn]
  · rw [if_neg hn]
    cases hf : n with
    | zero => exact absurd hf hn
    | succ m =>
      simp only [digitsRev]
      rw [if_neg (hf ▸ hn)]
      simp

theorem natChars_all_digits (n : Nat) :
    ∀ c ∈ natChars n, isDigitChar c = true := by
  intro c hc
  unfold natChars at hc
  by_cases hn : n = 0
  · rw [if_pos hn] at hc
    simp at hc
    rw [hc]; decide
  · rw [if_neg hn] at hc
    rw [List.mem_reverse, List.mem_map] at hc
    obtain ⟨d, hd, rfl⟩ := hc
    exact digitChar_isDigit d (digitsRev_lt_ten n n d hd)

theorem natChars_foldl (n : Nat) :
    (natChars n).foldl (fun a c => 10 * a + (c.toNat - 48)) 0 = n := by
  unfold natChars
  by_cases hn : n = 0
  · simp [hn]
  · rw [if_neg hn]
    rw [List.foldl_reverse]
    rw [List.foldr_map]
    have : ∀ ds : List Nat, (∀ d ∈ ds, d < 10) →
        ds.foldr (fun d a => 10 * a + ((Nat.digitChar d).toNat - 48)) 0 =
        ds.foldr (fun d a => 10 * a + d) 0 := by
      intro ds h
      induction ds with
      | nil => rfl
      | cons d ds ihd =>
        simp only [List.foldr_cons]
        rw [ihd (fun x hx => h x (List.mem_cons_of_mem d hx))]
        rw [digitChar_toNat d (h d (List.mem_cons_self d ds))]
        omega
    rw [this (digitsRev n n) (digitsRev_lt_ten n n)]
    exact digitsRev_foldr n n le_rfl

/-! ## Python values appearing in the options dictionaries -/

/-- A Python float identified by its shortest decimal representation
`mant * 10 ^ (- exp10)`.  Python's `repr` (used by `json.dumps`) prints a
float as exactly this shortest decimal form, so the pair determines the
printed text; e.g. `1.0` is `⟨1, 0⟩` and `0.25` is `⟨25, 2⟩`. -/
structure PyFloat where
  mant : Int
  exp10 : Nat
deriving DecidableEq

/-- The scalar Python values that occur in the options dictionaries of the
four layer components (`None`, `bool`, `int`, `float`, `str`). -/
inductive PyVal where
  | pynone
  | pybool (b : Bool)
  | pyint (n : Int)
  | pyfloat (f : PyFloat)
  | pystr (s : String)
deriving DecidableEq

/-- Left-pad a digit string with zeros to width `k` (fractional part of a
printed float). -/
def padZeros (cs : List Char) (k : Nat) : List Char :=
  List.replicate (k - cs.length) '0' ++ cs

/-- Printing of a `PyFloat`, modelling Python's `repr` on floats whose
shortest representation is the stored decimal: an integer part, a decimal
point, and an `exp10`-digit fractional part (`1.0`, `0.05`, `-2.5`, ...). -/
def pyFloatRepr (x : PyFloat) : String :=
  let m := x.mant.natAbs
  let sgn : List Char := if x.mant < 0 then ['-'] else []
  if x.exp10 = 0 then
    String.mk (sgn ++ natChars m ++ ['.', '0'])
  else
    String.mk (sgn ++ natChars (m / 10 ^ x.exp10) ++ '.' ::
      padZeros (natChars (m % 10 ^ x.exp10)) x.exp10)

/-- Four-hex-digit unicode escape `\uXXXX` (lower-case hex), as emitted by
`json.dumps` with its default `ensure_ascii=True`. -/
def uEsc (n : Nat) : List Char :=
  ['\\', 'u', Nat.digitChar (n / 4096 % 16), Nat.digitChar (n / 256 % 16),
   Nat.digitChar (n / 16 % 16), Nat.digitChar (n % 16)]

/-- Escaping of a single character inside a JSON string literal, following
CPython's `json.encoder.py_encode_basestring_ascii`: the two-character
escapes for quote, backslash and whitespace, `\uXXXX` for other control
and non-ASCII characters, and surrogate pairs above the BMP. -/
def escChar (c : Char) : List Char :=
  if c = '"' then ['\\', '"']
  else if c = '\\' then ['\\', '\\']
  else if c = '\n' then ['\\', 'n']
  else if c = '\t' then ['\\', 't']
  else if c = '\r' then ['\\', 'r']
  else if c.toNat = 8 then ['\\', 'b']
  else if c.toNat = 12 then ['\\', 'f']
  else if c.toNat < 32 then uEsc c.toNat
  else if c.toNat < 127 then [c]
  else if c.toNat < 65536 then uEsc c.toNat
  else uEsc (55296 + (c.toNat - 65536) / 1024) ++
       uEsc (56320 + (c.toNat - 65536) % 1024)

/-- JSON string literal for a Python `str` (quotes plus per-character
escaping). -/
def jsonQuote (s : String) : String :=
  String.mk ('"' :: (s.data.map escChar).flatten ++ ['"'])

/-- Serialization of one scalar Python value, as `json.dumps` prints it. -/
def jsonScalar : PyVal → String
  | PyVal.pynone => "null"
  | PyVal.pybool true => "true"
  | PyVal.pybool false => "false"
  | PyVal.pyint n => String.mk (intChars n)
  | PyVal.pyfloat x => pyFloatRepr x
  | PyVal.pystr s => jsonQuote s

/-! ## The two dictionary encoders used by the module -/

/-- Ordered insertion into a key-sorted association list (helper for
`sortByKey`). -/
def insertKeyed (kv : String × PyVal) :
    List (String × PyVal) → List (String × PyVal)
  | [] => [kv]
  | x :: xs =>
    if lexLe kv.1.data x.1.data then kv :: x :: xs else x :: insertKeyed kv xs

/-- Stable insertion sort of dictionary entries by key, in Python's
code-point string order; this is the traversal order of
`json.dumps(..., sort_keys=True)`. -/
def sortByKey : List (String × PyVal) → List (String × PyVal)
  | [] => []
  | x :: xs => insertKeyed x (sortByKey xs)

/-- The key order as a relation on entries. -/
def keyLe (a b : String × PyVal) : Prop := lexLe a.1.data b.1.data = true

instance : DecidableRel keyLe := fun a b => by
  unfold keyLe; infer_instance

/-- Model of `json.dumps(options, sort_keys=True, indent=2)`: keys sorted,
entries on their own lines indented by exactly two spaces, item separator
`,` plus newline, key separator `: `. -/
def dumpsSorted (m : List (String × PyVal)) : String :=
  if m.isEmpty then "\x7b\x7d"
  else
    "\x7b\n" ++
    String.intercalate ",\n"
      ((sortByKey m).map (fun kv => "  " ++ jsonQuote kv.1 ++ ": " ++ jsonScalar kv.2)) ++
    "\n\x7d"

/-- Model of plain `json.dumps(options)` (no `sort_keys`, no `indent`):
insertion order preserved, item separator `, `, key separator `: `. -/
def dumpsCompact (m : List (String × PyVal)) : String :=
  "\x7b" ++
  String.intercalate ", "
    (m.map (fun kv => jsonQuote kv.1 ++ ": " ++ jsonScalar kv.2)) ++
  "\x7d"

theorem mem_insertKeyed (kv a : String × PyVal) :
    ∀ l, a ∈ insertKeyed kv l ↔ a = kv ∨ a ∈ l := by
  intro l
  induction l with
  | nil => simp [insertKeyed]
  | cons x xs ih =>
    simp only [insertKeyed]
    split
    · simp [List.mem_cons]
    · simp only [List.mem_cons, ih]
      tauto

theorem pairwise_insertKeyed (kv : String × PyVal) :
    ∀ l, List.Pairwise keyLe l → List.Pairwise keyLe (insertKeyed kv l) := by
  intro l
  induction l with
  | nil => intro _; simp [insertKeyed, List.Pairwise]
  | cons x xs ih =>
    intro h
    rcases List.pairwise_cons.1 h with ⟨hx, hxs⟩
    simp only [insertKeyed]
    split
    · next hle =>
      refine List.pairwise_cons.2 ⟨?_, h⟩
      intro b hb
      rcases List.mem_cons.1 hb with rfl | hb
      · exact hle
      · exact lexLe_trans _ _ _ hle (hx b hb)
    · next hle =>
      have hxkv : keyLe x kv := by
        rcases lexLe_total kv.1.data x.1.data with h1 | h1
        · exact absurd h1 hle
        · exact h1
      refine List.pairwise_cons.2 ⟨?_, ih hxs⟩
      intro b hb
      rcases (mem_insertKeyed kv b xs).1 hb with rfl | hb
      · exact hxkv
      · exact hx b hb

theorem pairwise_sortByKey : ∀ l, List.Pairwise keyLe (sortByKey l) := by
  intro l
  induction l with
  | nil => simp [sortByKey, List.Pairwise]
  | cons x xs ih => exact pairwise_insertKeyed x _ ih

/-! ## Python strings and byte strings, and the tiles-name normalization -/

/-- A Python string-like attribution value.  `text s` is a `str`.  `bytes s`
is a byte string that is the UTF-8 encoding of the text `s`: since UTF-8
encoding is injective, indexing a valid byte string by its decoded text is a
faithful representation, and `text_type(b, 'utf8')` (the `six` spelling of
`b.decode('utf8')`) returns exactly `s`. -/
inductive PyStr where
  | text (s : String)
  | bytes (s : String)
deriving DecidableEq

/-- Python truthiness of an optional attribution value: `None` and empty
strings (of either kind) are falsy, exactly the values rejected by
`if not attr`. -/
def pyFalsyAttr : Option PyStr → Bool
  | none => true
  | some (PyStr.text s) => s = ""
  | some (PyStr.bytes s) => s = ""

/-- Python truthiness of the optional `API_key` argument: `None` and the
empty string are falsy (`if ... not API_key`). -/
def pyFalsyKey : Option String → Bool
  | none => true
  | some s => s = ""

/-- The attribution finally stored by the custom-tiles branch: a `str` is
kept as is, a (UTF-8) byte string is decoded by `text_type(attr, 'utf8')`,
which yields the text it encodes. -/
def pyAttrText : Option PyStr → String
  | none => ""
  | some (PyStr.text s) => s
  | some (PyStr.bytes s) => s

/-- The `attribution` entry placed in the options dictionary (built from the
raw `attr` argument before the byte-string decode): `None` becomes JSON
`null`, both string kinds serialize as their character content. -/
def pyOfAttr : Option PyStr → PyVal
  | none => PyVal.pynone
  | some (PyStr.text s) => PyVal.pystr s
  | some (PyStr.bytes s) => PyVal.pystr s

/-- The tiles-name normalization `''.join(tiles.lower().strip().split())`:
lower-casing followed by splitting on whitespace runs and concatenating the
parts, which removes every whitespace character and keeps all others in
order.  (`Char.toLower` matches `str.lower` on the ASCII provider names.) -/
def normalizeTiles (s : String) : String :=
  String.mk ((s.data.map Char.toLower).filter (fun c => !c.isWhitespace))

/-! ## The built-in tile-provider registry -/

/-- Modelled from the spec: the provider template registry, i.e. folium's
`templates/tiles/<name>/tiles.txt` and `attr.txt` files, which belong to the
repository but are not under `src/`.  Each built-in provider name (the
normalized forms of the names listed in the `TileLayer` docstring) maps to a
non-empty URL template and a non-empty attribution template; the key-gated
`cloudmade` and `mapbox` URL templates carry a `{{API_key}}` placeholder. -/
def providerRegistry : List (String × String × String) :=
  [("openstreetmap",
    "https://\x7bs\x7d.tile.openstreetmap.org/\x7bz\x7d/\x7bx\x7d/\x7by\x7d.png",
    "Data by OpenStreetMap, under ODbL."),
   ("mapboxbright",
    "https://a.tiles.mapbox.com/v4/mapbox.world-bright/\x7bz\x7d/\x7bx\x7d/\x7by\x7d.png",
    "Map tiles by Mapbox, Data by OpenStreetMap, under ODbL."),
   ("mapboxcontrolroom",
    "https://a.tiles.mapbox.com/v4/mapbox.control-room/\x7bz\x7d/\x7bx\x7d/\x7by\x7d.png",
    "Map tiles by Mapbox, Data by OpenStreetMap, under ODbL."),
   ("stamenterrain",
    "https://stamen-tiles-\x7bs\x7d.a.ssl.fastly.net/terrain/\x7bz\x7d/\x7bx\x7d/\x7by\x7d.jpg",
    "Map tiles by Stamen Design, under CC BY 3.0. Data by OpenStreetMap, under ODbL."),
   ("stamentoner",
    "https://stamen-tiles-\x7bs\x7d.a.ssl.fastly.net/toner/\x7bz\x7d/\x7bx\x7d/\x7by\x7d.png",
    "Map tiles by Stamen Design, under CC BY 3.0. Data by OpenStreetMap, under ODbL."),
   ("stamenwatercolor",
    "https://stamen-tiles-\x7bs\x7d.a.ssl.fastly.net/watercolor/\x7bz\x7d/\x7bx\x7d/\x7by\x7d.jpg",
    "Map tiles by Stamen Design, under CC BY 3.0. Data by OpenStreetMap, under CC BY SA."),
   ("cartodbpositron",
    "https://cartodb-basemaps-\x7bs\x7d.global.ssl.fastly.net/light_all/\x7bz\x7d/\x7bx\x7d/\x7by\x7d.png",
    "Map tiles by CartoDB, under CC BY 3.0. Data by OpenStreetMap, under ODbL."),
   ("cartodbdark_matter",
    "https://cartodb-basemaps-\x7bs\x7d.global.ssl.fastly.net/dark_all/\x7bz\x7d/\x7bx\x7d/\x7by\x7d.png",
    "Map tiles by CartoDB, under CC BY 3.0. Data by OpenStreetMap, under ODbL."),
   ("cloudmade",
    "http://\x7bs\x7d.tile.cloudmade.com/\x7b\x7bAPI_key\x7d\x7d/997/256/\x7bz\x7d/\x7bx\x7d/\x7by\x7d.png",
    "Map data CC-BY-SA OpenStreetMap, Imagery Cloudmade"),
   ("mapbox",
    "https://api.tiles.mapbox.com/v4/\x7b\x7bAPI_key\x7d\x7d/\x7bz\x7d/\x7bx\x7d/\x7by\x7d.png/",
    "Map tiles by Mapbox, Data by OpenStreetMap, under ODbL.")]

/-- The registered built-in provider names (the registry's key set). -/
def providerNames : List String := providerRegistry.map Prod.fst

/-- The key-gated provider family, exactly the tuple
`('cloudmade', 'mapbox')` tested at construction time. -/
def keyGatedProviders : List String := ["cloudmade", "mapbox"]

/-- Substitution of the `{{API_key}}` placeholder, the one variable the tile
and attribution templates reference; this models rendering the jinja2
template with `API_key=...`. -/
def substApiKey : List Char → List Char → List Char
  | '\x7b' :: '\x7b' :: 'A' :: 'P' :: 'I' :: '_' :: 'k' :: 'e' :: 'y' :: '\x7d' :: '\x7d' :: rest, key =>
      key ++ substApiKey rest key
  | c :: rest, key => c :: substApiKey rest key
  | [], _ => []

/-- Rendering of a provider template with the optional API key (jinja2
prints the Python value `None` for an absent key; the keyless templates do
not reference the placeholder, so the key is then irrelevant). -/
def renderTpl (t : String) (key : Option String) : String :=
  String.mk (substApiKey t.data (match key with
    | some k => k.data
    | none => "None".data))

/-! ## The shared Layer base and the TileLayer component -/

/-- Modelled from the spec: the base layer abstraction
(`folium.map.Layer` / branca `Element`, not under `src/`), reduced to the
state it stores for a freshly constructed, unattached layer: the layer name
passed to it and the overlay/control flags.  Identifier generation and
parent/child attachment belong to the external collaborator and are not
consumed by the verified claims. -/
structure LayerBase where
  layerName : Option String
  overlay : Bool
  control : Bool
deriving DecidableEq

/-- Modelled from the spec: `super().__init__(name=..., overlay=...,
control=...)` for the base layer abstraction. -/
def layerInit (name : Option String) (overlay control : Bool) : LayerBase :=
  ⟨name, overlay, control⟩

/-- The constructor arguments of `TileLayer.__init__` (defaults are applied
at the call sites that model them). -/
structure TileLayerArgs where
  tiles : String
  min_zoom : Int
  max_zoom : Int
  attr : Option PyStr
  API_key : Option String
  detect_retina : Bool
  name : Option String
  overlay : Bool
  control : Bool
  no_wrap : Bool
  subdomains : String
deriving DecidableEq

/-- The options dictionary built by `TileLayer.__init__` (insertion order as
written in the source; `json.dumps` then sorts the keys). -/
def tileLayerDict (a : TileLayerArgs) : List (String × PyVal) :=
  [("minZoom", PyVal.pyint a.min_zoom),
   ("maxZoom", PyVal.pyint a.max_zoom),
   ("noWrap", PyVal.pybool a.no_wrap),
   ("attribution", pyOfAttr a.attr),
   ("subdomains", PyVal.pystr a.subdomains),
   ("detectRetina", PyVal.pybool a.detect_retina)]

/-- The state of a fully constructed `TileLayer`. -/
structure TileLayerObj where
  base : LayerBase
  tile_name : String
  options : String
  tiles : String
  attr : String
deriving DecidableEq

/-- The instance attributes of a `TileLayer` that have been assigned when
`__init__` raises (the raise happens part way through the statement list, so
the fields assigned before the failing check are populated).  Constant
assignments (`self._name`, `self._env`, `self._template`) are omitted. -/
structure TileLayerAssigned where
  tile_name : Option String
  base : Option LayerBase
  options : Option String
  tiles : Option String
deriving DecidableEq

/-- Outcome of `TileLayer.__init__`: either the fully constructed object or
a raised `ValueError` message together with the instance attributes already
assigned at the moment of the raise. -/
inductive TileInit where
  | ok (t : TileLayerObj)
  | err (msg : String) (assigned : TileLayerAssigned)
deriving DecidableEq

/-- The internal name `self.tile_name`: the explicit `name` argument if
given, otherwise the normalized tiles string. -/
def tileNameOf (a : TileLayerArgs) : String :=
  match a.name with
  | some n => n
  | none => normalizeTiles a.tiles

/-- The `ValueError` message of the API-key check. -/
def apiKeyMsg : String :=
  "You must pass an API key if using Cloudmade or non-default Mapbox tiles."

/-- The `ValueError` message of the custom-tiles attribution check. -/
def customAttrMsg : String :=
  "Custom tiles must also be passed an attribution."

/-- Statement-by-statement model of `TileLayer.__init__`: assign
`tile_name`, run the base initializer, serialize the options with sorted
keys, normalize the tiles string, raise if the provider is key-gated and no
API key is given, otherwise resolve the provider against the registry (both
the tile and the attribution template must exist), and fall back to the
custom-tiles branch, which requires a truthy attribution and decodes a
byte-string attribution as UTF-8. -/
def tileLayerInit (a : TileLayerArgs) : TileInit :=
  let tile_name := tileNameOf a
  let base := layerInit (some tile_name) a.overlay a.control
  let options := dumpsSorted (tileLayerDict a)
  let tiles1 := normalizeTiles a.tiles
  if tiles1 ∈ keyGatedProviders ∧ pyFalsyKey a.API_key = true then
    TileInit.err apiKeyMsg ⟨some tile_name, some base, some options, some tiles1⟩
  else
    match providerRegistry.lookup tiles1 with
    | some ua =>
        TileInit.ok ⟨base, tile_name, options, renderTpl ua.1 a.API_key, ua.2⟩
    | none =>
        if pyFalsyAttr a.attr then
          TileInit.err customAttrMsg
            ⟨some tile_name, some base, some options, some a.tiles⟩
        else
          TileInit.ok ⟨base, tile_name, options, a.tiles, pyAttrText a.attr⟩

/-- Whether construction raised. -/
def TileInit.isErr : TileInit → Bool
  | TileInit.ok _ => false
  | TileInit.err _ _ => true

/-- The raised message, if construction raised. -/
def TileInit.errMsg : TileInit → Option String
  | TileInit.ok _ => none
  | TileInit.err m _ => some m

/-- The instance attributes assigned at the moment of the raise, if
construction raised. -/
def TileInit.assignedOnRaise : TileInit → Option TileLayerAssigned
  | TileInit.ok _ => none
  | TileInit.err _ f => some f

/-- The serialized options of the construction attempt (present in both
outcomes: `self.options` is assigned before either check can raise). -/
def TileInit.optionsOf : TileInit → Option String
  | TileInit.ok t => some t.options
  | TileInit.err _ f => f.options

/-- `TileLayer(tiles=s)` with every other argument left at its default. -/
def mkTileArgs (tiles : String) : TileLayerArgs :=
  ⟨tiles, 1, 18, none, none, false, none, false, true, false, "abc"⟩

/-- `TileLayer(tiles=s, attr=a)` with every other argument at its default. -/
def mkCustomArgs (tiles : String) (attr : Option PyStr) : TileLayerArgs :=
  ⟨tiles, 1, 18, attr, none, false, none, false, true, false, "abc"⟩

/-- The script fragment produced by rendering the `TileLayer._template`
macro body for an object: the fixed jinja template with its three
substitution slots (generated identifier, parent identifier, and the
object's `tiles` and `options` fields).  `self.attr` has no slot. -/
def tileLayerScript (t : TileLayerObj) (selfName parentName : String) : String :=
  "var " ++ selfName ++ " = L.tileLayer(\n    '" ++ t.tiles ++ "',\n    " ++
    t.options ++ "\n    ).addTo(" ++ parentName ++ ");"

/-! ## JSON values for the bounds round-trip
(`json.loads(json.dumps(bounds))`) -/

/-- Plain nested numeric arrays — the JSON-compatible shape of a bounds
value.  A numeric leaf is either a Python `int` (`num n`) or a Python
`float` (`fnum m e`), the latter identified by its shortest decimal
representation `m / 10 ^ (e + 1)` with `e + 1` fractional digits — exactly
the text Python's `repr` prints for it and `json.loads` reads back (a float
`repr` always shows at least one fractional digit, e.g. `1.0` is
`fnum 10 0` and `0.25` is `fnum 25 1`).  Floats whose `repr` uses exponent
notation (magnitudes far outside the coordinate range) and the signed zero
`-0.0` are artifacts of the binary format with no shortest plain decimal
of this form and are outside the model. -/
inductive JTree where
  | num (n : Int)
  | fnum (m : Int) (e : Nat)
  | arr (xs : List JTree)

/-- Decimal character representation of the float `m / 10 ^ (e + 1)`:
optional sign, integer part, decimal point, and exactly `e + 1` fractional
digits — the text `repr`/`json.dumps` prints for that float. -/
def fnumChars (m : Int) (e : Nat) : List Char :=
  (if m < 0 then ['-'] else []) ++
    natChars (m.natAbs / 10 ^ (e + 1)) ++
    '.' :: padZeros (natChars (m.natAbs % 10 ^ (e + 1))) (e + 1)

mutual

/-- Model of `json.dumps` on nested numeric arrays (default separators:
`', '` between array items). -/
def dumpsJ : JTree → List Char
  | JTree.num n => intChars n
  | JTree.fnum m e => fnumChars m e
  | JTree.arr l => '[' :: dumpsArr l

/-- The characters of a dumped array after its opening bracket. -/
def dumpsArr : List JTree → List Char
  | [] => [']']
  | x :: xs => dumpsJ x ++ dumpsRest xs

/-- The characters of a dumped array after its first element: `, `-separated
further elements and the closing bracket. -/
def dumpsRest : List JTree → List Char
  | [] => [']']
  | x :: xs => ',' :: ' ' :: (dumpsJ x ++ dumpsRest xs)

end

mutual

/-- Structural size of a tree (drives the parser's fuel). -/
def sizeJ : JTree → Nat
  | JTree.num _ => 1
  | JTree.fnum _ _ => 1
  | JTree.arr l => 1 + sizeL l

/-- Structural size of a list of trees. -/
def sizeL : List JTree → Nat
  | [] => 1
  | x :: xs => 1 + sizeJ x + sizeL xs

end

/-- Scanner for a run of decimal digits with an accumulator (the number
scanner of `json.loads` restricted to integers). -/
def parseNatDigits : List Char → Nat → Nat × List Char
  | [], acc => (acc, [])
  | c :: cs, acc =>
    if isDigitChar c then parseNatDigits cs (10 * acc + (c.toNat - 48))
    else (acc, c :: cs)

/-- Scanner for a run of fractional digits, accumulating the value and
counting the digits consumed beyond the first. -/
def parseFracDigits : List Char → Nat → Nat → Nat × Nat × List Char
  | [], acc, k => (acc, k, [])
  | c :: cs, acc, k =>
    if isDigitChar c then parseFracDigits cs (10 * acc + (c.toNat - 48)) (k + 1)
    else (acc, k, c :: cs)

/-- Continuation of the number scanner after the integer digits `a` (with
`neg` recording a leading minus): a decimal point followed by at least one
digit makes the literal a float, otherwise it is the integer itself —
exactly how `json.loads` distinguishes `int` from `float` literals. -/
def parseAfterInt (neg : Bool) (a : Nat) (cs : List Char) :
    Option (JTree × List Char) :=
  if cs.head? = some '.' then
    match cs.tail with
    | [] => none
    | d :: rest2 =>
      if isDigitChar d then
        let q := parseFracDigits rest2 (d.toNat - 48) 0
        some (JTree.fnum
          (if neg then -((a * 10 ^ (q.2.1 + 1) + q.1 : Nat) : Int)
           else ((a * 10 ^ (q.2.1 + 1) + q.1 : Nat) : Int)) q.2.1, q.2.2)
      else none
  else
    some (JTree.num (if neg then -((a : Nat) : Int) else (a : Int)), cs)

/-- Parser for a (possibly negative) integer or decimal float literal. -/
def parseNum : List Char → Option (JTree × List Char)
  | [] => none
  | c :: rest =>
    if c = '-' then
      match rest with
      | [] => none
      | d :: rest2 =>
        if isDigitChar d then
          let p := parseNatDigits rest2 (d.toNat - 48)
          parseAfterInt true p.1 p.2
        else none
    else
      if isDigitChar c then
        let p := parseNatDigits rest (c.toNat - 48)
        parseAfterInt false p.1 p.2
      else none

mutual

/-- Recursive-descent parser for the grammar emitted by `dumpsJ` (the
relevant fragment of `json.loads`), with explicit fuel so the definition is
structural. -/
def parseJ : Nat → List Char → Option (JTree × List Char)
  | 0, _ => none
  | _ + 1, [] => none
  | f + 1, c :: cs =>
    if c = '[' then
      if cs.head? = some ']' then some (JTree.arr [], cs.tail)
      else
        match parseJ f cs with
        | none => none
        | some (x, r1) =>
          match parseTail f r1 with
          | none => none
          | some (xs, r2) => some (JTree.arr (x :: xs), r2)
    else parseNum (c :: cs)

/-- Parser for the remainder of an array after its first element. -/
def parseTail : Nat → List Char → Option (List JTree × List Char)
  | 0, _ => none
  | _ + 1, [] => none
  | f + 1, c :: cs =>
    if c = ']' then some ([], cs)
    else if c = ',' ∧ cs.head? = some ' ' then
      match parseJ f cs.tail with
      | none => none
      | some (x, r1) =>
        match parseTail f r1 with
        | none => none
        | some (xs, r2) => some (x :: xs, r2)
    else none

end

/-- Model of `json.loads` on the output of `dumpsJ`: run the
recursive-descent parser with ample fuel and require that the whole input is
consumed. -/
def loadsJson (cs : List Char) : Option JTree :=
  match parseJ (2 * cs.length + 2) cs with
  | some (t, []) => some t
  | _ => none

/-- `json.loads(json.dumps(bounds))`, the normalization applied to the
bounds of ImageOverlay and VideoOverlay.  (The default is never used: the
parse of a dumped tree always succeeds.) -/
def pyJsonRoundTrip (b : JTree) : JTree :=
  (loadsJson (dumpsJ b)).getD (JTree.arr [])

/-- Input whose head, if any, is not a digit (a number scanner stops exactly
there). -/
def noDigitHead (cs : List Char) : Prop :=
  ∀ c, cs.head? = some c → isDigitChar c = false

theorem noDigitHead_nil : noDigitHead [] := by
  intro c h
  simp at h

/-- Input at which a number literal may legally stop: the head, if any, is
neither a digit nor a decimal point (in an array dump the next character is
always `,`, `]`, or the end of the input). -/
def numBoundary (cs : List Char) : Prop :=
  ∀ c, cs.head? = some c → isDigitChar c = false ∧ c ≠ '.'

theorem numBoundary_nil : numBoundary [] := by
  intro c h
  simp at h

theorem numBoundary_noDigit {cs : List Char} (h : numBoundary cs) :
    noDigitHead cs :=
  fun c hc => (h c hc).1

theorem parseNatDigits_spec :
    ∀ (es : List Char) (acc : Nat) (rest : List Char),
      (∀ c ∈ es, isDigitChar c = true) → noDigitHead rest →
      parseNatDigits (es ++ rest) acc =
        (es.foldl (fun a c => 10 * a + (c.toNat - 48)) acc, rest) := by
  intro es
  induction es with
  | nil =>
    intro acc rest _ hr
    cases rest with
    | nil => rfl
    | cons c cs =>
      simp only [List.nil_append, parseNatDigits, List.foldl_nil]
      rw [if_neg]
      simp only [Bool.not_eq_true]
      exact hr c rfl
  | cons c es ih =>
    intro acc rest hd hr
    have hc : isDigitChar c = true := hd c (List.mem_cons_self c es)
    simp only [List.cons_append, parseNatDigits, hc, if_true, List.foldl_cons]
    exact ih _ rest (fun x hx => hd x (List.mem_cons_of_mem c hx)) hr

theorem natChars_run (n : Nat) (rest : List Char) (hr : noDigitHead rest) :
    ∃ c cs, natChars n = c :: cs ∧ isDigitChar c = true ∧
      parseNatDigits (cs ++ rest) (c.toNat - 48) = (n, rest) := by
  obtain ⟨c, cs, hc⟩ : ∃ c cs, natChars n = c :: cs := by
    cases h : natChars n with
    | nil => exact absurd h (natChars_ne_nil n)
    | cons c cs => exact ⟨c, cs, rfl⟩
  refine ⟨c, cs, hc, natChars_all_digits n c (hc ▸ List.mem_cons_self c cs), ?_⟩
  have hall : ∀ x ∈ cs, isDigitChar x = true := by
    intro x hx
    exact natChars_all_digits n x (hc ▸ List.mem_cons_of_mem c hx)
  rw [parseNatDigits_spec cs (c.toNat - 48) rest hall hr]
  have : (c.toNat - 48) = ((fun a x => 10 * a + (x.toNat - 48)) 0 c) := by
    simp
  rw [this, ← List.foldl_cons, ← hc, natChars_foldl n]

theorem digit_ne_minus {c : Char} (h : isDigitChar c = true) : ¬ c = '-' := by
  intro hc
  rw [hc] at h
  simp [isDigitChar] at h

theorem parseFracDigits_spec :
    ∀ (es : List Char) (acc k : Nat) (rest : List Char),
      (∀ c ∈ es, isDigitChar c = true) → noDigitHead rest →
      parseFracDigits (es ++ rest) acc k =
        (es.foldl (fun a c => 10 * a + (c.toNat - 48)) acc,
         k + es.length, rest) := by
  intro es
  induction es with
  | nil =>
    intro acc k rest _ hr
    cases rest with
    | nil => rfl
    | cons c cs =>
      simp only [List.nil_append, parseFracDigits, List.foldl_nil,
        List.length_nil, Nat.add_zero]
      rw [if_neg]
      simp only [Bool.not_eq_true]
      exact hr c rfl
  | cons c es ih =>
    intro acc k rest hd hr
    have hc : isDigitChar c = true := hd c (List.mem_cons_self c es)
    simp only [List.cons_append, parseFracDigits, hc, if_true, List.foldl_cons,
      List.length_cons]
    have hcount : k + 1 + es.length = k + (es.length + 1) := by omega
    rw [← hcount]
    exact ih _ _ rest (fun x hx => hd x (List.mem_cons_of_mem c hx)) hr

theorem digitsRev_length_le : ∀ f n k, n < 10 ^ k →
    (digitsRev f n).length ≤ k := by
  intro f
  induction f with
  | zero => intro n k _; simp [digitsRev]
  | succ f ih =>
    intro n k hk
    simp only [digitsRev]
    by_cases hn : n = 0
    · simp [hn]
    · rw [if_neg hn]
      cases k with
      | zero =>
        simp only [pow_zero] at hk
        omega
      | succ k =>
        simp only [List.length_cons]
        have hdiv : n / 10 < 10 ^ k := by
          rw [pow_succ] at hk
          omega
        have := ih (n / 10) k hdiv
        omega

theorem natChars_length_le (n k : Nat) (hn : n < 10 ^ k) (hk : 1 ≤ k) :
    (natChars n).length ≤ k := by
  unfold natChars
  by_cases h0 : n = 0
  · rw [if_pos h0]
    simpa using hk
  · rw [if_neg h0, List.length_reverse, List.length_map]
    exact digitsRev_length_le n n k hn

theorem padZeros_length (cs : List Char) (k : Nat) (h : cs.length ≤ k) :
    (padZeros cs k).length = k := by
  unfold padZeros
  rw [List.length_append, List.length_replicate]
  omega

theorem padZeros_all_digits (b k : Nat) :
    ∀ c ∈ padZeros (natChars b) k, isDigitChar c = true := by
  intro c hc
  unfold padZeros at hc
  rcases List.mem_append.1 hc with hc | hc
  · rw [List.eq_of_mem_replicate hc]
    decide
  · exact natChars_all_digits b c hc

theorem foldl_zeros (z : Nat) :
    (List.replicate z '0').foldl (fun a c => 10 * a + (c.toNat - 48)) 0 = 0 := by
  induction z with
  | zero => rfl
  | succ z ih =>
    rw [List.replicate_succ, List.foldl_cons]
    exact ih

theorem padZeros_foldl (b k : Nat) :
    (padZeros (natChars b) k).foldl
      (fun a c => 10 * a + (c.toNat - 48)) 0 = b := by
  unfold padZeros
  rw [List.foldl_append, foldl_zeros]
  exact natChars_foldl b

theorem parseAfterInt_int (neg : Bool) (a : Nat) (cs : List Char)
    (h : numBoundary cs) :
    parseAfterInt neg a cs =
      some (JTree.num (if neg then -((a : Nat) : Int) else (a : Int)), cs) := by
  unfold parseAfterInt
  rw [if_neg]
  intro hdot
  cases cs with
  | nil => simp at hdot
  | cons c cs =>
    simp only [List.head?_cons, Option.some.injEq] at hdot
    exact (h c rfl).2 hdot

theorem parseAfterInt_frac (neg : Bool) (a b e : Nat) (rest : List Char)
    (hb : b < 10 ^ (e + 1)) (hr : noDigitHead rest) :
    parseAfterInt neg a ('.' :: (padZeros (natChars b) (e + 1) ++ rest)) =
      some (JTree.fnum
        (if neg then -((a * 10 ^ (e + 1) + b : Nat) : Int)
         else ((a * 10 ^ (e + 1) + b : Nat) : Int)) e, rest) := by
  have hlen : (padZeros (natChars b) (e + 1)).length = e + 1 :=
    padZeros_length _ _ (natChars_length_le b (e + 1) hb (by omega))
  obtain ⟨d, Ftail, hF⟩ :
      ∃ d Ftail, padZeros (natChars b) (e + 1) = d :: Ftail := by
    cases hFc : padZeros (natChars b) (e + 1) with
    | nil => rw [hFc] at hlen; simp at hlen
    | cons d t => exact ⟨d, t, rfl⟩
  have hd : isDigitChar d = true :=
    padZeros_all_digits b (e + 1) d (hF ▸ List.mem_cons_self d Ftail)
  have hdigs : ∀ c ∈ Ftail, isDigitChar c = true := fun c hc =>
    padZeros_all_digits b (e + 1) c (hF ▸ List.mem_cons_of_mem d hc)
  have htail : Ftail.length = e := by
    rw [hF] at hlen
    simp only [List.length_cons] at hlen
    omega
  unfold parseAfterInt
  rw [if_pos (show ('.' :: (padZeros (natChars b) (e + 1) ++ rest)).head? =
    some '.' from rfl)]
  simp only [List.tail_cons, hF, List.cons_append]
  simp only [hd, if_true]
  rw [parseFracDigits_spec Ftail (d.toNat - 48) 0 rest hdigs hr]
  have hval : Ftail.foldl (fun a c => 10 * a + (c.toNat - 48))
      (d.toNat - 48) = b := by
    have h0 : (d.toNat - 48) = ((fun a c => 10 * a + (c.toNat - 48)) 0 d) := by
      simp
    rw [h0, ← List.foldl_cons, ← hF]
    exact padZeros_foldl b (e + 1)
  simp only [hval, htail, Nat.zero_add]

theorem parseNum_intChars (n : Int) (rest : List Char) (hr : numBoundary rest) :
    parseNum (intChars n ++ rest) = some (JTree.num n, rest) := by
  by_cases hn : n < 0
  · obtain ⟨c, cs, hc, hdig, hrun⟩ :=
      natChars_run n.natAbs rest (numBoundary_noDigit hr)
    simp only [intChars, if_pos hn, hc, List.cons_append, parseNum, if_true]
    simp only [hdig, if_true]
    rw [hrun, parseAfterInt_int true n.natAbs rest hr]
    have : (if (true : Bool) = true then -((n.natAbs : Nat) : Int)
        else ((n.natAbs : Nat) : Int)) = n := by
      rw [if_pos rfl]
      omega
    rw [this]
  · obtain ⟨c, cs, hc, hdig, hrun⟩ :=
      natChars_run n.toNat rest (numBoundary_noDigit hr)
    simp only [intChars, if_neg hn, hc, List.cons_append, parseNum]
    rw [if_neg (digit_ne_minus hdig)]
    simp only [hdig, if_true]
    rw [hrun, parseAfterInt_int false n.toNat rest hr]
    have : (if (false : Bool) = true then -((n.toNat : Nat) : Int)
        else ((n.toNat : Nat) : Int)) = n := by
      rw [if_neg (by simp)]
      omega
    rw [this]

theorem dot_boundary (cs : List Char) : noDigitHead ('.' :: cs) := by
  intro c hc
  simp only [List.head?_cons, Option.some.injEq] at hc
  rw [← hc]
  decide

theorem parseNum_fnumChars (m : Int) (e : Nat) (rest : List Char)
    (hr : numBoundary rest) :
    parseNum (fnumChars m e ++ rest) = some (JTree.fnum m e, rest) := by
  have hb : m.natAbs % 10 ^ (e + 1) < 10 ^ (e + 1) :=
    Nat.mod_lt _ (by positivity)
  have hsplit : m.natAbs / 10 ^ (e + 1) * 10 ^ (e + 1) +
      m.natAbs % 10 ^ (e + 1) = m.natAbs := by
    rw [Nat.mul_comm]
    exact Nat.div_add_mod _ _
  by_cases hm : m < 0
  · obtain ⟨c, cs, hc, hdig, hrun⟩ :=
      natChars_run (m.natAbs / 10 ^ (e + 1))
        ('.' :: (padZeros (natChars (m.natAbs % 10 ^ (e + 1))) (e + 1) ++ rest))
        (dot_boundary _)
    simp only [fnumChars, if_pos hm, hc, List.cons_append, List.append_assoc,
      List.nil_append, parseNum, if_true]
    simp only [hdig, if_true]
    rw [hrun, parseAfterInt_frac true _ _ e rest hb
      (numBoundary_noDigit hr)]
    have : (if (true : Bool) = true then
        -((m.natAbs / 10 ^ (e + 1) * 10 ^ (e + 1) +
            m.natAbs % 10 ^ (e + 1) : Nat) : Int)
        else ((m.natAbs / 10 ^ (e + 1) * 10 ^ (e + 1) +
            m.natAbs % 10 ^ (e + 1) : Nat) : Int)) = m := by
      rw [if_pos rfl, hsplit]
      omega
    rw [this]
  · obtain ⟨c, cs, hc, hdig, hrun⟩ :=
      natChars_run (m.natAbs / 10 ^ (e + 1))
        ('.' :: (padZeros (natChars (m.natAbs % 10 ^ (e + 1))) (e + 1) ++ rest))
        (dot_boundary _)
    simp only [fnumChars, if_neg hm, hc, List.cons_append, List.append_assoc,
      List.nil_append, parseNum]
    rw [if_neg (digit_ne_minus hdig)]
    simp only [hdig, if_true]
    rw [hrun, parseAfterInt_frac false _ _ e rest hb
      (numBoundary_noDigit hr)]
    have : (if (false : Bool) = true then
        -((m.natAbs / 10 ^ (e + 1) * 10 ^ (e + 1) +
            m.natAbs % 10 ^ (e + 1) : Nat) : Int)
        else ((m.natAbs / 10 ^ (e + 1) * 10 ^ (e + 1) +
            m.natAbs % 10 ^ (e + 1) : Nat) : Int)) = m := by
      rw [if_neg (by simp), hsplit]
      omega
    rw [this]

theorem sizeJ_pos : ∀ t, 1 ≤ sizeJ t := by
  intro t
  cases t with
  | num n => simp [sizeJ]
  | fnum m e => simp [sizeJ]
  | arr l => simp only [sizeJ]; omega

theorem sizeL_pos : ∀ l, 1 ≤ sizeL l := by
  intro l
  cases l with
  | nil => simp [sizeL]
  | cons x xs => simp only [sizeL]; omega

theorem intChars_head :
    ∀ n : Int, ∃ c cs, intChars n = c :: cs ∧ (c = '-' ∨ isDigitChar c = true) := by
  intro n
  unfold intChars
  by_cases hn : n < 0
  · exact ⟨'-', natChars n.natAbs, by rw [if_pos hn], Or.inl rfl⟩
  · rw [if_neg hn]
    cases h : natChars n.toNat with
    | nil => exact absurd h (natChars_ne_nil n.toNat)
    | cons c cs =>
      exact ⟨c, cs, rfl,
        Or.inr (natChars_all_digits n.toNat c (h ▸ List.mem_cons_self c cs))⟩

theorem fnumChars_head :
    ∀ (m : Int) (e : Nat), ∃ c cs, fnumChars m e = c :: cs ∧
      (c = '-' ∨ isDigitChar c = true) := by
  intro m e
  unfold fnumChars
  by_cases hm : m < 0
  · rw [if_pos hm]
    exact ⟨'-', _, rfl, Or.inl rfl⟩
  · rw [if_neg hm]
    cases h : natChars (m.natAbs / 10 ^ (e + 1)) with
    | nil => exact absurd h (natChars_ne_nil _)
    | cons c cs =>
      refine ⟨c,
        cs ++ '.' :: padZeros (natChars (m.natAbs % 10 ^ (e + 1))) (e + 1),
        ?_, Or.inr (natChars_all_digits _ c (h ▸ List.mem_cons_self c cs))⟩
      simp [h]

theorem dumpsJ_head_ne :
    ∀ t, ∃ c cs, dumpsJ t = c :: cs ∧ c ≠ ']' := by
  intro t
  cases t with
  | num n =>
    obtain ⟨c, cs, hc, hd⟩ := intChars_head n
    refine ⟨c, cs, by simp [dumpsJ, hc], ?_⟩
    rcases hd with rfl | hd
    · decide
    · intro he
      rw [he] at hd
      simp [isDigitChar] at hd
  | fnum m e =>
    obtain ⟨c, cs, hc, hd⟩ := fnumChars_head m e
    refine ⟨c, cs, by simp [dumpsJ, hc], ?_⟩
    rcases hd with rfl | hd
    · decide
    · intro he
      rw [he] at hd
      simp [isDigitChar] at hd
  | arr l => exact ⟨'[', dumpsArr l, by simp [dumpsJ], by decide⟩

theorem dumpsRest_head :
    ∀ l, ∃ cs, dumpsRest l = ']' :: cs ∨ dumpsRest l = ',' :: cs := by
  intro l
  cases l with
  | nil => exact ⟨[], Or.inl (by simp [dumpsRest])⟩
  | cons x xs => exact ⟨' ' :: (dumpsJ x ++ dumpsRest xs), Or.inr (by simp [dumpsRest])⟩

theorem numBoundary_dumpsRest (l : List JTree) (r : List Char) :
    numBoundary (dumpsRest l ++ r) := by
  obtain ⟨cs, h | h⟩ := dumpsRest_head l <;>
    · rw [h]
      intro c hc
      simp at hc
      rw [← hc]
      decide

theorem parse_round : ∀ f : Nat,
    (∀ t rest, sizeJ t ≤ f → numBoundary rest →
      parseJ f (dumpsJ t ++ rest) = some (t, rest)) ∧
    (∀ l rest, sizeL l ≤ f → numBoundary rest →
      parseTail f (dumpsRest l ++ rest) = some (l, rest)) := by
  intro f
  induction f with
  | zero =>
    constructor
    · intro t rest hs _
      have := sizeJ_pos t
      omega
    · intro l rest hs _
      have := sizeL_pos l
      omega
  | succ f ih =>
    constructor
    · intro t rest hs hr
      cases t with
      | num n =>
        obtain ⟨c, cs, hc, _⟩ := intChars_head n
        have hcne : ¬ c = '[' := by
          rcases intChars_head n with ⟨c', cs', hc', hd⟩
          rw [hc'] at hc
          injection hc with h1 h2
          subst h1
          rcases hd with rfl | hd
          · decide
          · intro he
            rw [he] at hd
            simp [isDigitChar] at hd
        have : dumpsJ (JTree.num n) ++ rest = c :: (cs ++ rest) := by
          simp [dumpsJ, hc]
        rw [this]
        simp only [parseJ]
        rw [if_neg hcne]
        rw [show c :: (cs ++ rest) = intChars n ++ rest by simp [hc]]
        exact parseNum_intChars n rest hr
      | fnum m e =>
        obtain ⟨c, cs, hc, hd⟩ := fnumChars_head m e
        have hcne : ¬ c = '[' := by
          rcases hd with rfl | hd
          · decide
          · intro he
            rw [he] at hd
            simp [isDigitChar] at hd
        have : dumpsJ (JTree.fnum m e) ++ rest = c :: (cs ++ rest) := by
          simp [dumpsJ, hc]
        rw [this]
        simp only [parseJ]
        rw [if_neg hcne]
        rw [show c :: (cs ++ rest) = fnumChars m e ++ rest by simp [hc]]
        exact parseNum_fnumChars m e rest hr
      | arr l =>
        cases l with
        | nil =>
          show parseJ (f + 1) ('[' :: (']' :: rest)) = _
          simp [parseJ]
        | cons x xs =>
          have hsx : sizeJ x ≤ f := by
            simp only [sizeJ, sizeL] at hs
            have := sizeL_pos xs
            omega
          have hsl : sizeL xs ≤ f := by
            simp only [sizeJ, sizeL] at hs
            have := sizeJ_pos x
            omega
          have h1 : parseJ f (dumpsJ x ++ (dumpsRest xs ++ rest)) =
              some (x, dumpsRest xs ++ rest) :=
            ih.1 x _ hsx (numBoundary_dumpsRest xs rest)
          have h2 : parseTail f (dumpsRest xs ++ rest) = some (xs, rest) :=
            ih.2 xs rest hsl hr
          have hsh : dumpsJ (JTree.arr (x :: xs)) ++ rest =
              '[' :: (dumpsJ x ++ (dumpsRest xs ++ rest)) := by
            simp [dumpsJ, dumpsArr]
          rw [hsh]
          simp only [parseJ, if_true]
          obtain ⟨c, cs, hc, hcne⟩ := dumpsJ_head_ne x
          have hhd : (dumpsJ x ++ (dumpsRest xs ++ rest)).head? = some c := by
            rw [hc]
            rfl
          rw [if_neg (by rw [hhd]; simp [hcne])]
          simp only [h1, h2]
    · intro l rest hs hr
      cases l with
      | nil =>
        show parseTail (f + 1) (']' :: rest) = _
        simp [parseTail]
      | cons x xs =>
        have hsx : sizeJ x ≤ f := by
          simp only [sizeL] at hs
          have := sizeL_pos xs
          omega
        have hsl : sizeL xs ≤ f := by
          simp only [sizeL] at hs
          have := sizeJ_pos x
          omega
        have h1 : parseJ f (dumpsJ x ++ (dumpsRest xs ++ rest)) =
            some (x, dumpsRest xs ++ rest) :=
          ih.1 x _ hsx (numBoundary_dumpsRest xs rest)
        have h2 : parseTail f (dumpsRest xs ++ rest) = some (xs, rest) :=
          ih.2 xs rest hsl hr
        have hsh : dumpsRest (x :: xs) ++ rest =
            ',' :: ' ' :: (dumpsJ x ++ (dumpsRest xs ++ rest)) := by
          simp [dumpsRest]
        rw [hsh]
        simp only [parseTail]
        rw [if_neg (by decide)]
        rw [if_pos (by simp)]
        simp only [List.tail_cons]
        simp only [h1, h2]

theorem parse_mono : ∀ f : Nat,
    (∀ cs r, parseJ f cs = some r → parseJ (f + 1) cs = some r) ∧
    (∀ cs r, parseTail f cs = some r → parseTail (f + 1) cs = some r) := by
  intro f
  induction f with
  | zero =>
    constructor
    · intro cs r h
      simp [parseJ] at h
    · intro cs r h
      simp [parseTail] at h
  | succ f ih =>
    constructor
    · intro cs r h
      cases cs with
      | nil => simp [parseJ] at h
      | cons c cs =>
        simp only [parseJ] at h ⊢
        by_cases hc : c = '['
        · rw [if_pos hc] at h ⊢
          by_cases hh : cs.head? = some ']'
          · rw [if_pos hh] at h ⊢
            exact h
          · rw [if_neg hh] at h ⊢
            cases e1 : parseJ f cs with
            | none => rw [e1] at h; simp at h
            | some p1 =>
              obtain ⟨x, r1⟩ := p1
              simp only [e1] at h
              simp only [ih.1 cs (x, r1) e1]
              cases e2 : parseTail f r1 with
              | none => simp only [e2] at h; simp at h
              | some p2 =>
                obtain ⟨xs, r2⟩ := p2
                simp only [e2] at h
                simp only [ih.2 r1 (xs, r2) e2]
                exact h
        · rw [if_neg hc] at h ⊢
          exact h
    · intro cs r h
      cases cs with
      | nil => simp [parseTail] at h
      | cons c cs =>
        simp only [parseTail] at h ⊢
        by_cases hc : c = ']'
        · rw [if_pos hc] at h ⊢
          exact h
        · rw [if_neg hc] at h ⊢
          by_cases hc2 : c = ',' ∧ cs.head? = some ' '
          · rw [if_pos hc2] at h ⊢
            cases e1 : parseJ f cs.tail with
            | none => rw [e1] at h; simp at h
            | some p1 =>
              obtain ⟨x, r1⟩ := p1
              simp only [e1] at h
              simp only [ih.1 cs.tail (x, r1) e1]
              cases e2 : parseTail f r1 with
              | none => simp only [e2] at h; simp at h
              | some p2 =>
                obtain ⟨xs, r2⟩ := p2
                simp only [e2] at h
                simp only [ih.2 r1 (xs, r2) e2]
                exact h
          · rw [if_neg hc2] at h
            exact absurd h (by simp)

theorem parseJ_mono_le {f g : Nat} {cs : List Char} {r : JTree × List Char}
    (hfg : f ≤ g) (h : parseJ f cs = some r) : parseJ g cs = some r := by
  induction g, hfg using Nat.le_induction with
  | base => exact h
  | succ g _ ihg => exact (parse_mono g).1 cs r ihg

theorem size_le_dumps : ∀ n : Nat,
    (∀ t, sizeJ t ≤ n → sizeJ t ≤ 2 * (dumpsJ t).length) ∧
    (∀ l, sizeL l ≤ n → sizeL l ≤ 2 * (dumpsRest l).length) := by
  intro n
  induction n with
  | zero =>
    constructor
    · intro t hs
      have := sizeJ_pos t
      omega
    · intro l hs
      have := sizeL_pos l
      omega
  | succ n ih =>
    constructor
    · intro t hs
      cases t with
      | num m =>
        have h1 : (intChars m).length ≥ 1 := by
          obtain ⟨c, cs, hc, _⟩ := intChars_head m
          rw [hc]
          simp
        simp only [sizeJ, dumpsJ]
        omega
      | fnum m e =>
        have h1 : (fnumChars m e).length ≥ 1 := by
          obtain ⟨c, cs, hc, _⟩ := fnumChars_head m e
          rw [hc]
          simp
        simp only [sizeJ, dumpsJ]
        omega
      | arr l =>
        cases l with
        | nil => simp [sizeJ, sizeL, dumpsJ, dumpsArr]
        | cons x xs =>
          have hx : sizeJ x ≤ 2 * (dumpsJ x).length := by
            refine ih.1 x ?_
            simp only [sizeJ, sizeL] at hs
            have := sizeL_pos xs
            omega
          have hxs : sizeL xs ≤ 2 * (dumpsRest xs).length := by
            refine ih.2 xs ?_
            simp only [sizeJ, sizeL] at hs
            have := sizeJ_pos x
            omega
          simp only [sizeJ, sizeL, dumpsJ, dumpsArr, List.length_cons,
            List.length_append]
          omega
    · intro l hs
      cases l with
      | nil => simp [sizeL, dumpsRest]
      | cons x xs =>
        have hx : sizeJ x ≤ 2 * (dumpsJ x).length := by
          refine ih.1 x ?_
          simp only [sizeL] at hs
          have := sizeL_pos xs
          omega
        have hxs : sizeL xs ≤ 2 * (dumpsRest xs).length := by
          refine ih.2 xs ?_
          simp only [sizeL] at hs
          have := sizeJ_pos x
          omega
        simp only [sizeL, dumpsRest, List.length_cons, List.length_append]
        omega

theorem loadsJson_dumpsJ (t : JTree) : loadsJson (dumpsJ t) = some t := by
  have h0 : parseJ (sizeJ t) (dumpsJ t ++ []) = some (t, []) :=
    (parse_round (sizeJ t)).1 t [] le_rfl numBoundary_nil
  rw [List.append_nil] at h0
  have hle : sizeJ t ≤ 2 * (dumpsJ t).length + 2 := by
    have := (size_le_dumps (sizeJ t)).1 t le_rfl
    omega
  have hfinal : parseJ (2 * (dumpsJ t).length + 2) (dumpsJ t) = some (t, []) :=
    parseJ_mono_le hle h0
  unfold loadsJson
  rw [hfinal]

theorem pyJsonRoundTrip_id (t : JTree) : pyJsonRoundTrip t = t := by
  unfold pyJsonRoundTrip
  rw [loadsJson_dumpsJ t]
  rfl

/-! ## WmsTileLayer -/

/-- Modelled from the spec: `folium.utilities._parse_wms` (not under
`src/`), which merges the fixed WMS parameters (`layers`, `styles`,
`fmt` as `format`, `transparent`, `version`) with arbitrary passthrough
keyword parameters into one options mapping. -/
def parseWms (layers styles fmt : String) (transparent : Bool)
    (version : String) (extra : List (String × PyVal)) :
    List (String × PyVal) :=
  [("layers", PyVal.pystr layers),
   ("styles", PyVal.pystr styles),
   ("format", PyVal.pystr fmt),
   ("transparent", PyVal.pybool transparent),
   ("version", PyVal.pystr version)] ++ extra

/-- Python `dict` single-key update (`options.update({k: v})` /
`_children[name] = child`): if the key is present its value is replaced in
place, otherwise the pair is appended at the end. -/
def dictUpdate {β : Type} (m : List (String × β)) (k : String) (v : β) :
    List (String × β) :=
  if m.any (fun kv => kv.1 = k) then
    m.map (fun kv => if kv.1 = k then (k, v) else kv)
  else m ++ [(k, v)]

/-- The constructor arguments of `WmsTileLayer.__init__`; `wmsParams` is the
mapping returned by the external `_parse_wms(**kwargs)` call. -/
structure WmsArgs where
  url : String
  name : Option String
  attr : String
  overlay : Bool
  control : Bool
  wmsParams : List (String × PyVal)
deriving DecidableEq

/-- A fully constructed `WmsTileLayer`. -/
structure WmsObj where
  base : LayerBase
  url : String
  options : String
deriving DecidableEq

/-- The options dictionary of `WmsTileLayer.__init__`:
`options = _parse_wms(**kwargs)` followed by
`options.update({'attribution': attr})`. -/
def wmsDict (a : WmsArgs) : List (String × PyVal) :=
  dictUpdate a.wmsParams "attribution" (PyVal.pystr a.attr)

/-- Model of `WmsTileLayer.__init__`: base initializer, then the parsed WMS
parameters with the attribution entry added/overwritten, serialized exactly
like TileLayer's options (sorted keys, indent 2). -/
def wmsTileLayerInit (a : WmsArgs) : WmsObj :=
  ⟨layerInit a.name a.overlay a.control, a.url, dumpsSorted (wmsDict a)⟩

/-! ## ImageOverlay -/

/-- The constructor arguments of `ImageOverlay.__init__`.  `Image` and
`Colormap` are the (opaque) types handled by the external image utilities;
the seven option values come in through `**kwargs` and are read with
`kwargs.pop(key, default)`, so an absent field (`none`) selects the
default. -/
structure ImageOverlayArgs (Image Colormap : Type) where
  image : Image
  bounds : JTree
  origin : String
  colormap : Option Colormap
  mercator_project : Bool
  overlay : Bool
  control : Bool
  pixelated : Bool
  name : Option String
  opacity : Option PyFloat
  alt : Option String
  interactive : Option Bool
  cross_origin : Option Bool
  error_overlay_url : Option String
  zindex : Option Int
  class_name : Option String

/-- The options dictionary of `ImageOverlay.__init__` (its insertion order,
with the documented defaults for absent keyword arguments). -/
def imageOverlayDict {Image Colormap : Type}
    (a : ImageOverlayArgs Image Colormap) : List (String × PyVal) :=
  [("opacity", PyVal.pyfloat (a.opacity.getD ⟨1, 0⟩)),
   ("alt", PyVal.pystr (a.alt.getD "")),
   ("interactive", PyVal.pybool (a.interactive.getD false)),
   ("crossOrigin", PyVal.pybool (a.cross_origin.getD false)),
   ("errorOverlayUrl", PyVal.pystr (a.error_overlay_url.getD "")),
   ("zIndex", PyVal.pyint (a.zindex.getD 1)),
   ("className", PyVal.pystr (a.class_name.getD ""))]

/-- A fully constructed `ImageOverlay`. -/
structure ImageOverlayObj where
  base : LayerBase
  url : String
  bounds : JTree
  options : String
  pixelated : Bool

/-- Python subscription `t[i]` on a nested array (total here, with an inert
default in place of the `IndexError`/`TypeError` Python would raise on
malformed bounds; the claims only instantiate well-formed bounds, for which
the default is never consulted). -/
def jIdx (t : JTree) (i : Nat) : JTree :=
  match t with
  | JTree.arr xs => xs.getD i (JTree.num 0)
  | JTree.num _ => JTree.num 0
  | JTree.fnum _ _ => JTree.num 0

/-- Model of `ImageOverlay.__init__`, parameterized by the two external
folium utilities it calls (`mercator_transform` and `image_to_url`, which
live in `folium.utilities`, outside this module): build the options with
popped defaults, reproject the image through
`mercator_transform(image, [bounds[0][0], bounds[1][0]], origin=origin)`
when `mercator_project` is set, convert the (possibly reprojected) image
with `image_to_url(image, origin=origin, colormap=colormap)`, and normalize
the bounds through the JSON round-trip. -/
def imageOverlayInit {Image Colormap : Type}
    (mercator_transform : Image → List JTree → String → Image)
    (image_to_url : Image → String → Option Colormap → String)
    (a : ImageOverlayArgs Image Colormap) : ImageOverlayObj :=
  let base := layerInit a.name a.overlay a.control
  let image :=
    if a.mercator_project then
      mercator_transform a.image
        [jIdx (jIdx a.bounds 0) 0, jIdx (jIdx a.bounds 1) 0] a.origin
    else a.image
  { base := base,
    url := image_to_url image a.origin a.colormap,
    bounds := pyJsonRoundTrip a.bounds,
    options := dumpsSorted (imageOverlayDict a),
    pixelated := a.pixelated }

/-- `ImageOverlay._get_self_bounds` (returns `self.bounds`). -/
def imageOverlayGetSelfBounds (o : ImageOverlayObj) : JTree := o.bounds

/-! ## Rendering of ImageOverlay into a figure -/

/-- The head section of a figure, modelled from the branca `Figure`: a
keyed, ordered collection of child elements (`OrderedDict` keyed by the
name passed to `add_child`). -/
structure Fig where
  headerChildren : List (String × String)
deriving DecidableEq

/-- The root element a layer can be attached to: either a `Figure` or some
other element (in which case the `isinstance(figure, Figure)` assertion
fails). -/
inductive RootElem where
  | fig (f : Fig)
  | nonFigure
deriving DecidableEq

/-- The fixed CSS block inserted by `ImageOverlay.render` when `pixelated`
is true. -/
def pixelatedCss : String :=
  "<style>\n        .leaflet-image-layer \x7b\n        image-rendering: -webkit-optimize-contrast; /* old android/safari*/\n        image-rendering: crisp-edges; /* safari */\n        image-rendering: pixelated; /* chrome */\n        image-rendering: -moz-crisp-edges; /* firefox */\n        image-rendering: -o-crisp-edges; /* opera */\n        -ms-interpolation-mode: nearest-neighbor; /* ie */\n        \x7d\n        </style>"

/-- The stable key under which the CSS block is registered in the figure
header. -/
def pixelatedKey : String := "leaflet-image-layer"

/-- The error message of the figure assertion in `ImageOverlay.render`. -/
def notInFigureMsg : String :=
  "You cannot render this Element if it is not in a Figure."

/-- Model of `ImageOverlay.render`: assert that the root is a `Figure`
(raising otherwise), then, if `pixelated`, add the CSS block to the
figure's header keyed by the stable name (branca's named `add_child`
assigns into the keyed collection, so an existing entry is replaced, not
duplicated). -/
def imageOverlayRender (o : ImageOverlayObj) (root : RootElem) :
    Except String RootElem :=
  match root with
  | RootElem.nonFigure => Except.error notInFigureMsg
  | RootElem.fig f =>
      Except.ok (RootElem.fig
        (if o.pixelated then ⟨dictUpdate f.headerChildren pixelatedKey pixelatedCss⟩
         else f))

/-- Sequential rendering of a list of overlays into the same root (each
render call sees the document state left by the previous one). -/
def renderAll (os : List ImageOverlayObj) (root : RootElem) :
    Except String RootElem :=
  match os with
  | [] => Except.ok root
  | o :: rest =>
    match imageOverlayRender o root with
    | Except.error e => Except.error e
    | Except.ok r => renderAll rest r

/-- How many header entries carry a given key. -/
def countKey (h : List (String × String)) (k : String) : Nat :=
  (h.filter (fun kv => kv.1 = k)).length

/-! ## VideoOverlay -/

/-- The constructor arguments of `VideoOverlay.__init__`. -/
structure VideoOverlayArgs where
  video_url : String
  bounds : JTree
  opacity : PyFloat
  attr : Option String
  autoplay : Bool
  loop : Bool

/-- A fully constructed `VideoOverlay`. -/
structure VideoOverlayObj where
  base : LayerBase
  video_url : String
  bounds : JTree
  options : String

/-- The options dictionary of `VideoOverlay.__init__`, in its declared
insertion order. -/
def videoOverlayDict (a : VideoOverlayArgs) : List (String × PyVal) :=
  [("opacity", PyVal.pyfloat a.opacity),
   ("attribution", match a.attr with
     | none => PyVal.pynone
     | some s => PyVal.pystr s),
   ("loop", PyVal.pybool a.loop),
   ("autoplay", PyVal.pybool a.autoplay)]

/-- Model of `VideoOverlay.__init__`: a plain base initializer
(`super().__init__()` with the base defaults `name=None, overlay=False,
control=True`), bounds through the JSON round-trip, and options serialized
by plain `json.dumps` — no key sorting, unlike the other three
components. -/
def videoOverlayInit (a : VideoOverlayArgs) : VideoOverlayObj :=
  ⟨layerInit none false true, a.video_url, pyJsonRoundTrip a.bounds,
   dumpsCompact (videoOverlayDict a)⟩

/-- `VideoOverlay._get_self_bounds` (returns `self.bounds`). -/
def videoOverlayGetSelfBounds (o : VideoOverlayObj) : JTree := o.bounds

/-- `VideoOverlay(video_url='a.mp4', bounds=[[0,0],[1,1]])` with the
documented defaults for the remaining arguments. -/
def mkVideoArgs : VideoOverlayArgs :=
  ⟨"a.mp4",
   JTree.arr [JTree.arr [JTree.num 0, JTree.num 0],
              JTree.arr [JTree.num 1, JTree.num 1]],
   ⟨1, 0⟩, none, true, true⟩

/-! ## Supporting lemmas about TileLayer construction -/

theorem lookup_eq_none_of_not_mem {β : Type} :
    ∀ (l : List (String × β)) (k : String),
      k ∉ l.map Prod.fst → l.lookup k = none := by
  intro l k h
  induction l with
  | nil => rfl
  | cons x xs ih =>
    obtain ⟨k', v⟩ := x
    simp only [List.map_cons, List.mem_cons, not_or] at h
    have hbeq : (k == k') = false := by
      simp only [beq_eq_false_iff_ne, ne_eq]
      exact h.1
    simp only [List.lookup, hbeq]
    exact ih h.2

theorem gated_subset_providers :
    ∀ p ∈ keyGatedProviders, p ∈ providerNames := by decide

/-- The options string shared by every `TileLayer` built with the default
optional arguments (the dictionary does not depend on the tiles string). -/
def defaultTileOptions : String := dumpsSorted (tileLayerDict (mkTileArgs ""))

theorem tileLayerInit_builtin (s p u att : String)
    (hp : normalizeTiles s = p)
    (hlook : providerRegistry.lookup p = some (u, att))
    (hgate : p ∉ keyGatedProviders) :
    tileLayerInit (mkTileArgs s) = TileInit.ok
      ⟨⟨some p, false, true⟩, p, defaultTileOptions,
       renderTpl u none, att⟩ := by
  unfold tileLayerInit tileNameOf
  show (if normalizeTiles (mkTileArgs s).tiles ∈ keyGatedProviders ∧
          pyFalsyKey (mkTileArgs s).API_key = true then _ else _) = _
  have htiles : (mkTileArgs s).tiles = s := rfl
  rw [htiles, hp]
  rw [if_neg (fun hc => hgate hc.1)]
  simp only [show (mkTileArgs s).API_key = none from rfl, hlook]
  rfl

theorem tileLayerInit_gated (s p : String)
    (hp : normalizeTiles s = p)
    (hgate : p ∈ keyGatedProviders) :
    tileLayerInit (mkTileArgs s) = TileInit.err apiKeyMsg
      ⟨some p, some ⟨some p, false, true⟩,
       some defaultTileOptions, some p⟩ := by
  unfold tileLayerInit tileNameOf
  show (if normalizeTiles (mkTileArgs s).tiles ∈ keyGatedProviders ∧
          pyFalsyKey (mkTileArgs s).API_key = true then _ else _) = _
  have htiles : (mkTileArgs s).tiles = s := rfl
  rw [htiles, hp]
  rw [if_pos ⟨hgate, rfl⟩]
  rfl

theorem tileLayerInit_custom (a : TileLayerArgs)
    (hmem : normalizeTiles a.tiles ∉ providerNames) :
    tileLayerInit a =
      if pyFalsyAttr a.attr = true then
        TileInit.err customAttrMsg
          ⟨some (tileNameOf a),
           some (layerInit (some (tileNameOf a)) a.overlay a.control),
           some (dumpsSorted (tileLayerDict a)), some a.tiles⟩
      else
        TileInit.ok ⟨layerInit (some (tileNameOf a)) a.overlay a.control,
          tileNameOf a, dumpsSorted (tileLayerDict a), a.tiles,
          pyAttrText a.attr⟩ := by
  have hgate : normalizeTiles a.tiles ∉ keyGatedProviders :=
    fun h => hmem (gated_subset_providers _ h)
  have hnone : providerRegistry.lookup (normalizeTiles a.tiles) = none :=
    lookup_eq_none_of_not_mem providerRegistry _ hmem
  unfold tileLayerInit
  rw [if_neg (fun hc => hgate hc.1)]
  simp only [hnone]

/-- C1: for every string whose normalized form (case folded, whitespace
removed) names a registered built-in provider, constructing a `TileLayer`
without an API key raises exactly when the provider is in the key-gated
family `('cloudmade', 'mapbox')`; for every other built-in provider the
construction succeeds and both the resolved URL template and the resolved
attribution are non-empty. -/
theorem tileLayer_builtin_key_gating (s : String)
    (hmem : normalizeTiles s ∈ providerNames) :
    ((tileLayerInit (mkTileArgs s)).isErr = true ↔
      normalizeTiles s ∈ keyGatedProviders)
    ∧ (normalizeTiles s ∉ keyGatedProviders →
        ∃ t, tileLayerInit (mkTileArgs s) = TileInit.ok t ∧
          t.tiles ≠ "" ∧ t.attr ≠ "") := by
  have hm : normalizeTiles s = "openstreetmap" ∨
      normalizeTiles s = "mapboxbright" ∨
      normalizeTiles s = "mapboxcontrolroom" ∨
      normalizeTiles s = "stamenterrain" ∨
      normalizeTiles s = "stamentoner" ∨
      normalizeTiles s = "stamenwatercolor" ∨
      normalizeTiles s = "cartodbpositron" ∨
      normalizeTiles s = "cartodbdark_matter" ∨
      normalizeTiles s = "cloudmade" ∨
      normalizeTiles s = "mapbox" := by
    simpa [providerNames, providerRegistry] using hmem
  rcases hm with hp | hp | hp | hp | hp | hp | hp | hp | hp | hp
  · rw [hp, tileLayerInit_builtin s "openstreetmap" _ _ hp (by rfl) (by decide)]
    exact ⟨by decide, fun _ => ⟨_, rfl, by decide, by decide⟩⟩
  · rw [hp, tileLayerInit_builtin s "mapboxbright" _ _ hp (by rfl) (by decide)]
    exact ⟨by decide, fun _ => ⟨_, rfl, by decide, by decide⟩⟩
  · rw [hp, tileLayerInit_builtin s "mapboxcontrolroom" _ _ hp (by rfl) (by decide)]
    exact ⟨by decide, fun _ => ⟨_, rfl, by decide, by decide⟩⟩
  · rw [hp, tileLayerInit_builtin s "stamenterrain" _ _ hp (by rfl) (by decide)]
    exact ⟨by decide, fun _ => ⟨_, rfl, by decide, by decide⟩⟩
  · rw [hp, tileLayerInit_builtin s "stamentoner" _ _ hp (by rfl) (by decide)]
    exact ⟨by decide, fun _ => ⟨_, rfl, by decide, by decide⟩⟩
  · rw [hp, tileLayerInit_builtin s "stamenwatercolor" _ _ hp (by rfl) (by decide)]
    exact ⟨by decide, fun _ => ⟨_, rfl, by decide, by decide⟩⟩
  · rw [hp, tileLayerInit_builtin s "cartodbpositron" _ _ hp (by rfl) (by decide)]
    exact ⟨by decide, fun _ => ⟨_, rfl, by decide, by decide⟩⟩
  · rw [hp, tileLayerInit_builtin s "cartodbdark_matter" _ _ hp (by rfl) (by decide)]
    exact ⟨by decide, fun _ => ⟨_, rfl, by decide, by decide⟩⟩
  · rw [hp, tileLayerInit_gated s "cloudmade" hp (by decide)]
    exact ⟨by decide, fun hng => absurd (by decide) hng⟩
  · rw [hp, tileLayerInit_gated s "mapbox" hp (by decide)]
    exact ⟨by decide, fun hng => absurd (by decide) hng⟩

/-- Witness for C1: `TileLayer('OpenStreetMap')` (no API key) succeeds with
non-empty URL and attribution. -/
theorem tileLayer_builtin_key_gating_witness :
    ∃ t, tileLayerInit (mkTileArgs "OpenStreetMap") = TileInit.ok t ∧
      t.tiles ≠ "" ∧ t.attr ≠ "" :=
  (tileLayer_builtin_key_gating "OpenStreetMap" (by decide)).2 (by decide)

/-- C2: for every tiles string that does not resolve to a registered
built-in provider, construction with a missing or empty attribution raises
the custom-tiles `ValueError`; construction with a non-empty byte-string
attribution succeeds and stores the UTF-8 decoded text of those bytes. -/
theorem tileLayer_custom_attribution (s : String)
    (hmem : normalizeTiles s ∉ providerNames) :
    (∀ a : Option PyStr, pyFalsyAttr a = true →
        (tileLayerInit (mkCustomArgs s a)).errMsg = some customAttrMsg)
    ∧ (∀ b : String, b ≠ "" →
        ∃ t, tileLayerInit (mkCustomArgs s (some (PyStr.bytes b))) =
            TileInit.ok t ∧ t.attr = b ∧ t.tiles = s) := by
  constructor
  · intro a ha
    rw [tileLayerInit_custom (mkCustomArgs s a) hmem]
    rw [if_pos (show pyFalsyAttr (mkCustomArgs s a).attr = true from ha)]
    rfl
  · intro b hb
    have hfa : pyFalsyAttr (mkCustomArgs s (some (PyStr.bytes b))).attr = false := by
      show pyFalsyAttr (some (PyStr.bytes b)) = false
      simp [pyFalsyAttr, hb]
    rw [tileLayerInit_custom (mkCustomArgs s (some (PyStr.bytes b))) hmem]
    rw [if_neg (by simp [hfa])]
    exact ⟨_, rfl, rfl, rfl⟩

/-- Witness for C2: a custom URL with no attribution raises, and the same
URL with byte-string attribution `b'Attribution'` succeeds storing
`'Attribution'`. -/
theorem tileLayer_custom_attribution_witness :
    (tileLayerInit (mkCustomArgs "http://myserver/tiles.png" none)).errMsg =
      some customAttrMsg
    ∧ ∃ t, tileLayerInit (mkCustomArgs "http://myserver/tiles.png"
          (some (PyStr.bytes "Attribution"))) = TileInit.ok t ∧
        t.attr = "Attribution" ∧ t.tiles = "http://myserver/tiles.png" :=
  ⟨(tileLayer_custom_attribution "http://myserver/tiles.png" (by decide)).1
      none rfl,
   (tileLayer_custom_attribution "http://myserver/tiles.png" (by decide)).2
      "Attribution" (by decide)⟩

/-- C3: with `mercator_project=True` and an array-like image, the image is
passed through `mercator_transform` — called with the latitude extent
`[bounds[0][0], bounds[1][0]]` and the declared origin — before
`image_to_url` converts the result, with origin and colormap passed through
unchanged; with `mercator_project=False` the image goes to `image_to_url`
unmodified. -/
theorem imageOverlay_mercator_before_url
    (Image Colormap : Type)
    (mercator_transform : Image → List JTree → String → Image)
    (image_to_url : Image → String → Option Colormap → String)
    (img : Image) (la x lb y : JTree) (origin : String) (cm : Option Colormap)
    (overlay control pixelated : Bool) (name : Option String)
    (opacity : Option PyFloat) (alt : Option String)
    (interactive cross_origin : Option Bool)
    (eurl : Option String) (zi : Option Int) (cn : Option String) :
    (imageOverlayInit mercator_transform image_to_url
        ⟨img, JTree.arr [JTree.arr [la, x], JTree.arr [lb, y]], origin, cm,
         true, overlay, control, pixelated, name, opacity, alt, interactive,
         cross_origin, eurl, zi, cn⟩).url
      = image_to_url (mercator_transform img [la, lb] origin) origin cm
    ∧ (imageOverlayInit mercator_transform image_to_url
        ⟨img, JTree.arr [JTree.arr [la, x], JTree.arr [lb, y]], origin, cm,
         false, overlay, control, pixelated, name, opacity, alt, interactive,
         cross_origin, eurl, zi, cn⟩).url
      = image_to_url img origin cm := by
  exact ⟨rfl, rfl⟩

/-- C4: for every bounds value expressible as plain nested numeric arrays,
the self-bounds accessor of a constructed ImageOverlay or VideoOverlay
returns the input bounds unchanged (the `json.loads(json.dumps(bounds))`
round-trip is the identity). -/
theorem overlay_self_bounds_round_trip
    (Image Colormap : Type)
    (mt : Image → List JTree → String → Image)
    (itu : Image → String → Option Colormap → String)
    (ia : ImageOverlayArgs Image Colormap) (va : VideoOverlayArgs) :
    imageOverlayGetSelfBounds (imageOverlayInit mt itu ia) = ia.bounds
    ∧ videoOverlayGetSelfBounds (videoOverlayInit va) = va.bounds := by
  constructor
  · show pyJsonRoundTrip ia.bounds = ia.bounds
    exact pyJsonRoundTrip_id ia.bounds
  · show pyJsonRoundTrip va.bounds = va.bounds
    exact pyJsonRoundTrip_id va.bounds

/-- C6: the VideoOverlay options payload holds exactly the keys
`opacity, attribution, loop, autoplay` in that declared order with the
documented defaults, is encoded by the unsorted compact `json.dumps`
(unlike the sorted encoding of the other components), and the concrete
scenario `VideoOverlay(video_url='a.mp4', bounds=[[0,0],[1,1]])` yields
`{"opacity": 1.0, "attribution": null, "loop": true, "autoplay": true}`. -/
theorem videoOverlay_options_unsorted_payload :
    (∀ a : VideoOverlayArgs,
        (videoOverlayInit a).options = dumpsCompact (videoOverlayDict a)
        ∧ (videoOverlayDict a).map Prod.fst =
            ["opacity", "attribution", "loop", "autoplay"])
    ∧ (videoOverlayInit mkVideoArgs).options =
        "\x7b\"opacity\": 1.0, \"attribution\": null, \"loop\": true, \"autoplay\": true\x7d"
    ∧ (videoOverlayInit mkVideoArgs).options ≠
        dumpsSorted (videoOverlayDict mkVideoArgs) := by
  exact ⟨fun a => ⟨rfl, rfl⟩, by decide, by decide⟩

/-- C8: rendering an ImageOverlay whose root element is not a figure fails
with the `AssertionError` message of the `isinstance(figure, Figure)`
assertion; rendering with a figure root never raises it. -/
theorem imageOverlay_render_requires_figure (o : ImageOverlayObj) :
    imageOverlayRender o RootElem.nonFigure = Except.error notInFigureMsg
    ∧ ∀ f : Fig, ∃ f' : Fig,
        imageOverlayRender o (RootElem.fig f) = Except.ok (RootElem.fig f') := by
  refine ⟨rfl, fun f => ⟨_, rfl⟩⟩

theorem tileLayerInit_optionsOf (a : TileLayerArgs) :
    (tileLayerInit a).optionsOf = some (dumpsSorted (tileLayerDict a)) := by
  unfold tileLayerInit
  dsimp only
  split
  · rfl
  · split
    · rfl
    · split
      · rfl
      · rfl

/-- C5: constructing TileLayer, WmsTileLayer or ImageOverlay twice from
identical inputs yields byte-for-byte identical options strings; the
options of all three are produced by the same sorted-key fixed-indent
encoder, whose emitted key sequence is sorted in Python's string order. -/
theorem options_serialization_deterministic
    (Image Colormap : Type)
    (mt : Image → List JTree → String → Image)
    (itu : Image → String → Option Colormap → String)
    (ta ta' : TileLayerArgs) (wa wa' : WmsArgs)
    (ia ia' : ImageOverlayArgs Image Colormap)
    (h1 : ta = ta') (h2 : wa = wa') (h3 : ia = ia') :
    ((tileLayerInit ta).optionsOf = (tileLayerInit ta').optionsOf
      ∧ (wmsTileLayerInit wa).options = (wmsTileLayerInit wa').options
      ∧ (imageOverlayInit mt itu ia).options =
          (imageOverlayInit mt itu ia').options)
    ∧ ((tileLayerInit ta).optionsOf = some (dumpsSorted (tileLayerDict ta))
      ∧ (wmsTileLayerInit wa).options = dumpsSorted (wmsDict wa)
      ∧ (imageOverlayInit mt itu ia).options =
          dumpsSorted (imageOverlayDict ia))
    ∧ (List.Pairwise (fun k k' : String => lexLe k.data k'.data = true)
          ((sortByKey (tileLayerDict ta)).map Prod.fst)
      ∧ List.Pairwise (fun k k' : String => lexLe k.data k'.data = true)
          ((sortByKey (wmsDict wa)).map Prod.fst)
      ∧ List.Pairwise (fun k k' : String => lexLe k.data k'.data = true)
          ((sortByKey (imageOverlayDict ia)).map Prod.fst)) := by
  subst h1
  subst h2
  subst h3
  refine ⟨⟨rfl, rfl, rfl⟩, ⟨tileLayerInit_optionsOf ta, rfl, rfl⟩, ?_, ?_, ?_⟩
  · exact (pairwise_sortByKey (tileLayerDict ta)).map Prod.fst (fun a b h => h)
  · exact (pairwise_sortByKey (wmsDict wa)).map Prod.fst (fun a b h => h)
  · exact (pairwise_sortByKey (imageOverlayDict ia)).map Prod.fst (fun a b h => h)

/-- Concrete WMS arguments used by the C5 witness. -/
def wArgsW : WmsArgs :=
  ⟨"http://wms.example", none, "", true, true, [("layers", PyVal.pystr "l")]⟩

/-- Concrete ImageOverlay arguments used by the C5 witness. -/
def iArgsW : ImageOverlayArgs Nat Nat :=
  ⟨0, JTree.arr [], "upper", none, false, true, true, true, none, none, none,
   none, none, none, none, none⟩

/-- Concrete Mercator transform used by the C5 witness. -/
def mtW : Nat → List JTree → String → Nat := fun i _ _ => i

/-- Concrete image encoder used by the C5 witness. -/
def ituW : Nat → String → Option Nat → String := fun _ _ _ => "data:AA=="

/-- Witness for C5 at concrete arguments for all three components. -/
theorem options_serialization_deterministic_witness :
    ((tileLayerInit (mkTileArgs "OpenStreetMap")).optionsOf =
        (tileLayerInit (mkTileArgs "OpenStreetMap")).optionsOf
      ∧ (wmsTileLayerInit wArgsW).options = (wmsTileLayerInit wArgsW).options
      ∧ (imageOverlayInit mtW ituW iArgsW).options =
          (imageOverlayInit mtW ituW iArgsW).options)
    ∧ ((tileLayerInit (mkTileArgs "OpenStreetMap")).optionsOf =
        some (dumpsSorted (tileLayerDict (mkTileArgs "OpenStreetMap")))
      ∧ (wmsTileLayerInit wArgsW).options = dumpsSorted (wmsDict wArgsW)
      ∧ (imageOverlayInit mtW ituW iArgsW).options =
          dumpsSorted (imageOverlayDict iArgsW))
    ∧ (List.Pairwise (fun k k' : String => lexLe k.data k'.data = true)
          ((sortByKey (tileLayerDict (mkTileArgs "OpenStreetMap"))).map Prod.fst)
      ∧ List.Pairwise (fun k k' : String => lexLe k.data k'.data = true)
          ((sortByKey (wmsDict wArgsW)).map Prod.fst)
      ∧ List.Pairwise (fun k k' : String => lexLe k.data k'.data = true)
          ((sortByKey (imageOverlayDict iArgsW)).map Prod.fst)) :=
  options_serialization_deterministic Nat Nat mtW ituW
    (mkTileArgs "OpenStreetMap") (mkTileArgs "OpenStreetMap")
    wArgsW wArgsW iArgsW iArgsW rfl rfl rfl

/-! ## Counting lemmas for the pixelated-CSS insertion -/

theorem countKey_map_update (h : List (String × String)) (k v : String) :
    countKey (h.map (fun kv => if kv.1 = k then (k, v) else kv)) k =
      countKey h k := by
  induction h with
  | nil => rfl
  | cons x xs ih =>
    by_cases hx : x.1 = k
    · unfold countKey at ih ⊢
      simp [List.filter_cons, hx, ih]
    · unfold countKey at ih ⊢
      simp [List.filter_cons, hx, ih]

theorem countKey_dictUpdate (h : List (String × String)) (k v : String) :
    countKey (dictUpdate h k v) k =
      if countKey h k = 0 then 1 else countKey h k := by
  unfold dictUpdate
  by_cases hany : h.any (fun kv => kv.1 = k) = true
  · rw [if_pos hany]
    have hpos : countKey h k ≠ 0 := by
      rcases List.any_eq_true.1 hany with ⟨kv, hmem, hkv⟩
      have hmf : kv ∈ h.filter (fun kv => decide (kv.1 = k)) :=
        List.mem_filter.2 ⟨hmem, hkv⟩
      unfold countKey
      intro h0
      rw [List.length_eq_zero] at h0
      rw [h0] at hmf
      simp at hmf
    rw [if_neg hpos]
    exact countKey_map_update h k v
  · rw [if_neg hany]
    have hzero : (h.filter (fun kv => decide (kv.1 = k))).length = 0 := by
      rw [List.length_eq_zero, List.filter_eq_nil_iff]
      intro kv hkv hd
      exact hany (List.any_eq_true.2 ⟨kv, hkv, hd⟩)
    have hz' : countKey h k = 0 := hzero
    rw [if_pos hz']
    unfold countKey
    rw [List.filter_append, List.length_append, hzero]
    simp

theorem renderAll_keeps_one (os : List ImageOverlayObj) :
    ∀ f : Fig, (∀ o ∈ os, o.pixelated = true) →
      countKey f.headerChildren pixelatedKey = 1 →
      ∃ f', renderAll os (RootElem.fig f) = Except.ok (RootElem.fig f') ∧
        countKey f'.headerChildren pixelatedKey = 1 := by
  induction os with
  | nil => exact fun f _ h1 => ⟨f, rfl, h1⟩
  | cons o os ih =>
    intro f hall h1
    have hop : o.pixelated = true := hall o (List.mem_cons_self o os)
    have hstep : imageOverlayRender o (RootElem.fig f) =
        Except.ok (RootElem.fig
          ⟨dictUpdate f.headerChildren pixelatedKey pixelatedCss⟩) := by
      simp [imageOverlayRender, hop]
    have hcount :
        countKey (dictUpdate f.headerChildren pixelatedKey pixelatedCss)
          pixelatedKey = 1 := by
      rw [countKey_dictUpdate, h1]
      simp
    obtain ⟨f', hf', hc'⟩ :=
      ih ⟨dictUpdate f.headerChildren pixelatedKey pixelatedCss⟩
        (fun o ho => hall o (List.mem_cons_of_mem _ ho)) hcount
    refine ⟨f', ?_, hc'⟩
    simp only [renderAll, hstep]
    exact hf'

/-- C7: starting from a document whose head does not yet carry the
pixelated-CSS key, rendering any non-empty collection of ImageOverlay
instances with `pixelated=True` one after the other leaves exactly one copy
of the CSS block in the head (the keyed `add_child` replaces rather than
duplicates); rendering with `pixelated=False` leaves the document
untouched. -/
theorem imageOverlay_pixelated_css_once (f : Fig) (os : List ImageOverlayObj)
    (hall : ∀ o ∈ os, o.pixelated = true) (hne : os ≠ [])
    (hzero : countKey f.headerChildren pixelatedKey = 0) :
    (∃ f', renderAll os (RootElem.fig f) = Except.ok (RootElem.fig f') ∧
        countKey f'.headerChildren pixelatedKey = 1)
    ∧ ∀ (o : ImageOverlayObj) (g : Fig), o.pixelated = false →
        imageOverlayRender o (RootElem.fig g) = Except.ok (RootElem.fig g) := by
  constructor
  · cases os with
    | nil => exact absurd rfl hne
    | cons o os =>
      have hop : o.pixelated = true := hall o (List.mem_cons_self o os)
      have hstep : imageOverlayRender o (RootElem.fig f) =
          Except.ok (RootElem.fig
            ⟨dictUpdate f.headerChildren pixelatedKey pixelatedCss⟩) := by
        simp [imageOverlayRender, hop]
      have hcount :
          countKey (dictUpdate f.headerChildren pixelatedKey pixelatedCss)
            pixelatedKey = 1 := by
        rw [countKey_dictUpdate, hzero]
        simp
      obtain ⟨f', hf', hc'⟩ :=
        renderAll_keeps_one os
          ⟨dictUpdate f.headerChildren pixelatedKey pixelatedCss⟩
          (fun o ho => hall o (List.mem_cons_of_mem _ ho)) hcount
      refine ⟨f', ?_, hc'⟩
      simp only [renderAll, hstep]
      exact hf'
  · intro o g hg
    simp [imageOverlayRender, hg]

/-- A concrete pixelated overlay used by the C7 witness. -/
def overlayW : ImageOverlayObj :=
  ⟨⟨none, true, true⟩, "data:AA==", JTree.arr [], "opts", true⟩

/-- Witness for C7: two pixelated overlays rendered into an empty figure
leave exactly one CSS entry. -/
theorem imageOverlay_pixelated_css_once_witness :
    (∃ f', renderAll [overlayW, overlayW] (RootElem.fig ⟨[]⟩) =
        Except.ok (RootElem.fig f') ∧
        countKey f'.headerChildren pixelatedKey = 1)
    ∧ ∀ (o : ImageOverlayObj) (g : Fig), o.pixelated = false →
        imageOverlayRender o (RootElem.fig g) = Except.ok (RootElem.fig g) :=
  imageOverlay_pixelated_css_once ⟨[]⟩ [overlayW, overlayW]
    (by
      intro o ho
      rcases List.mem_cons.1 ho with rfl | ho
      · rfl
      · rcases List.mem_cons.1 ho with rfl | ho
        · rfl
        · simp at ho)
    (List.cons_ne_nil _ _) rfl

/-- Counterexample for C9: at `TileLayer(tiles='Mapbox')` (no API key) the
construction raises, yet the instance attributes `tile_name`, the base
state, `options` and `tiles` have already been assigned before the raise —
so the raise does not occur before any mutable state is assigned. -/
theorem tileLayer_partial_assignment_counterexample :
    (tileLayerInit (mkTileArgs "Mapbox")).isErr = true
    ∧ (tileLayerInit (mkTileArgs "Mapbox")).assignedOnRaise.map
        (fun f => f.tile_name.isSome && f.base.isSome &&
          f.options.isSome && f.tiles.isSome) = some true := by decide

/-- C9 (amended): construction of any of the four components either fully
succeeds or raises before the object is handed to the caller (only
`TileLayer.__init__` raises in this module; the other three construction
functions are total); when it raises, the instance attributes assigned up
to the raise point (`tile_name`, the base-layer state, `options`, `tiles`)
are already set on the partially built object, and no state outside that
object is touched. -/
theorem tileLayer_fail_fast_partial_assignment (a : TileLayerArgs) :
    (∃ t, tileLayerInit a = TileInit.ok t)
    ∨ (∃ e f, tileLayerInit a = TileInit.err e f
        ∧ f.tile_name.isSome = true ∧ f.base.isSome = true
        ∧ f.options.isSome = true ∧ f.tiles.isSome = true) := by
  unfold tileLayerInit
  dsimp only
  split
  · right
    exact ⟨_, _, rfl, rfl, rfl, rfl, rfl⟩
  · split
    · left
      exact ⟨_, rfl⟩
    · split
      · right
        exact ⟨_, _, rfl, rfl, rfl, rfl, rfl⟩
      · left
        exact ⟨_, rfl⟩

/-- C10: the attribution participates in the rendered snippet only through
the `attribution` entry of the sorted-key options JSON: the script template
has substitution slots only for the generated name, the parent name, the
tiles URL and the options string (so the stored `self.attr` does not
influence the snippet and no separate attribution statement is emitted),
and every construction places the raw `attr` argument in the options
dictionary. -/
theorem tileLayer_attribution_in_options_only :
    (∀ (base : LayerBase) (tn opts tiles a1 a2 n p : String),
        tileLayerScript ⟨base, tn, opts, tiles, a1⟩ n p =
          tileLayerScript ⟨base, tn, opts, tiles, a2⟩ n p)
    ∧ (∀ a : TileLayerArgs,
        (tileLayerInit a).optionsOf = some (dumpsSorted (tileLayerDict a))
        ∧ ("attribution", pyOfAttr a.attr) ∈ tileLayerDict a)
    ∧ (∀ (t : TileLayerObj) (n p : String),
        tileLayerScript t n p =
          "var " ++ n ++ " = L.tileLayer(\n    '" ++ t.tiles ++ "',\n    " ++
            t.options ++ "\n    ).addTo(" ++ p ++ ");") := by
  refine ⟨fun _ _ _ _ _ _ _ _ => rfl,
    fun a => ⟨tileLayerInit_optionsOf a, by simp [tileLayerDict]⟩,
    fun t n p => rfl⟩
